import Mathlib

/-!
Shallow embedding of the descriptor I/O core of the onposix library
(file src/PosixDescriptor.cpp), together with proofs of its specified
properties.

The embedding models:
  * the internal full-transfer loops PosixDescriptor::__read and
    PosixDescriptor::__write, with the underlying ::read / ::write
    syscalls abstracted as an oracle: a list of step results that the
    loop consumes one per iteration;
  * the synchronous wrappers PosixDescriptor::read(Buffer*, size_t),
    read(void*, size_t), write(Buffer*, size_t), write(const void*,
    size_t) and write(const std::string&), with an explicit event trace
    recording lock acquisitions, lock releases and underlying syscall
    invocations, so that the locking discipline is observable;
  * the asynchronous runner PosixDescriptor::AsyncThread:
    startAsyncOperation staging and the worker routine run(), with the
    completion handlers passed as explicit state-transformer parameters
    (the C++ code stores raw function pointers in fields; a handler can
    touch the runner state through startAsyncOperation, so its effect is
    modelled as a function on the runner state).

Machine integers: size_t values are modelled as Nat with explicit
wrap-around (mod 2^64) exactly where the C code performs unsigned
arithmetic (the statement remaining -= ret, the pointer offset
size - remaining and the returned count size - remaining).

A memory region is modelled as a List Nat of its bytes; storing past the
end of the region is modelled as a no-op (all claims proved here stay in
bounds).
-/

namespace Onposix

/-- Width of a 64-bit size_t: all unsigned arithmetic in the loops is
performed modulo this constant. -/
def W64 : Nat := 18446744073709551616

/-- Wrapping subtraction on size_t values: the value of the C expression
a - b computed in 64-bit unsigned arithmetic. -/
def wsub (a b : Nat) : Nat := (a + (W64 - b % W64)) % W64

/-- Result of one invocation of the underlying ::read primitive:
either a chunk of delivered bytes (the returned count is the chunk
length; an empty chunk is the end-of-stream return value 0), or a
negative return value signalling an I/O error. -/
inductive PrimResult where
  | chunk (bytes : List Nat)
  | err
deriving DecidableEq

/-- Result of one invocation of the underlying ::write primitive:
either a nonnegative count of bytes accepted, or a negative return
value signalling an I/O error. -/
inductive WPrim where
  | ok (n : Nat)
  | err
deriving DecidableEq

/-- Outcome of the internal read loop PosixDescriptor::__read.
ok carries the final contents of the target region and the returned
count; error is the thrown std::runtime_error (it carries the region
contents at the throw point, and no count); blocked is the modelling
artefact for an oracle that was exhausted while the loop still wanted
data (the real loop would keep blocking in ::read). -/
inductive ReadLoopRes where
  | ok (buf : List Nat) (count : Nat)
  | error (buf : List Nat)
  | blocked (buf : List Nat)
deriving DecidableEq

/-- Outcome of the internal write loop PosixDescriptor::__write,
analogous to ReadLoopRes (the write loop does not modify memory). -/
inductive WriteLoopRes where
  | ok (count : Nat)
  | error
  | blocked
deriving DecidableEq

/-- Store the byte list bytes into the region buf starting at position
pos (the effect of the underlying read writing through the pointer
buffer + pos); writing past the end of the region is a no-op. -/
def storeAt : List Nat → Nat → List Nat → List Nat
  | buf, _, [] => buf
  | buf, pos, b :: bs => storeAt (buf.set pos b) (pos + 1) bs

/-- Embedding of PosixDescriptor::__read (PosixDescriptor.cpp lines
131-147).  Arguments: the oracle for successive ::read results, the
target region, size and remaining (both size_t).  Returns the loop
outcome together with the number of ::read invocations performed.
Each iteration reads into buffer + (size - remaining) for remaining
bytes; a zero return breaks out of the loop, a negative return throws,
and otherwise remaining -= ret.  The returned count is size - remaining,
all arithmetic on size_t modelled with explicit wrap-around. -/
def readLoop : List PrimResult → List Nat → Nat → Nat → ReadLoopRes × Nat
  | prims, buf, size, remaining =>
    if remaining = 0 then (.ok buf (wsub size remaining), 0)
    else
      match prims with
      | [] => (.blocked buf, 0)
      | .err :: _ => (.error buf, 1)
      | .chunk c :: rest =>
        if c.length = 0 then (.ok buf (wsub size remaining), 1)
        else
          let r := readLoop rest (storeAt buf (wsub size remaining) c) size
            (wsub remaining c.length)
          (r.1, r.2 + 1)

/-- Embedding of PosixDescriptor::__write (PosixDescriptor.cpp lines
203-219), same shape as readLoop but without memory effects: a zero
return from ::write breaks out of the loop, a negative return throws,
and otherwise remaining -= ret. -/
def writeLoop : List WPrim → Nat → Nat → WriteLoopRes × Nat
  | prims, size, remaining =>
    if remaining = 0 then (.ok (wsub size remaining), 0)
    else
      match prims with
      | [] => (.blocked, 0)
      | .err :: _ => (.error, 1)
      | .ok n :: rest =>
        if n = 0 then (.ok (wsub size remaining), 1)
        else
          let r := writeLoop rest size (wsub remaining n)
          (r.1, r.2 + 1)

/-- Observable action of a synchronous call: acquiring the descriptor
lock, releasing it, or invoking the underlying transfer primitive once. -/
inductive Event where
  | lock
  | unlock
  | prim
deriving DecidableEq

/-- Result of a synchronous call: a returned int value, a propagated
std::runtime_error, or the modelling artefact for an exhausted oracle. -/
inductive SyncRes where
  | ret (n : Int)
  | exn
  | blocked
deriving DecidableEq

/-- Full observable outcome of a synchronous read call: result, event
trace in order of occurrence, and final contents of the target region. -/
structure SyncCall where
  res : SyncRes
  trace : List Event
  buf : List Nat
deriving DecidableEq

/-- Full observable outcome of a synchronous write call (writes do not
modify memory). -/
structure WSyncCall where
  res : SyncRes
  trace : List Event
deriving DecidableEq

/-- Embedding of PosixDescriptor::read(Buffer* b, size_t size)
(PosixDescriptor.cpp lines 159-169).  The Buffer is modelled by its
byte contents b, with getSize() = b.length.  If the capacity is zero or
size exceeds it, the call returns -1 immediately (the DEBUG diagnostic
is advisory and not modelled); otherwise it locks, runs the internal
read loop on the buffer, unlocks and returns the loop count.  When the
loop throws, the exception propagates and the unlock is skipped. -/
def read_Buffer (prims : List PrimResult) (b : List Nat) (size : Nat) : SyncCall :=
  if b.length = 0 ∨ size > b.length then
    ⟨.ret (-1), [], b⟩
  else
    match readLoop prims b size size with
    | (.ok buf n, k) => ⟨.ret n, Event.lock :: (List.replicate k Event.prim ++ [Event.unlock]), buf⟩
    | (.error buf, k) => ⟨.exn, Event.lock :: List.replicate k Event.prim, buf⟩
    | (.blocked buf, k) => ⟨.blocked, Event.lock :: List.replicate k Event.prim, buf⟩

/-- Embedding of PosixDescriptor::read(void* p, size_t size)
(PosixDescriptor.cpp lines 180-186): no validation, lock around the
internal read loop. -/
def read_raw (prims : List PrimResult) (p : List Nat) (size : Nat) : SyncCall :=
  match readLoop prims p size size with
  | (.ok buf n, k) => ⟨.ret n, Event.lock :: (List.replicate k Event.prim ++ [Event.unlock]), buf⟩
  | (.error buf, k) => ⟨.exn, Event.lock :: List.replicate k Event.prim, buf⟩
  | (.blocked buf, k) => ⟨.blocked, Event.lock :: List.replicate k Event.prim, buf⟩

/-- Embedding of PosixDescriptor::write(Buffer* b, size_t size)
(PosixDescriptor.cpp lines 230-238): after the capacity validation it
calls the internal write loop directly; the source acquires no lock on
this path. -/
def write_Buffer (prims : List WPrim) (b : List Nat) (size : Nat) : WSyncCall :=
  if b.length = 0 ∨ size > b.length then
    ⟨.ret (-1), []⟩
  else
    match writeLoop prims size size with
    | (.ok n, k) => ⟨.ret n, List.replicate k Event.prim⟩
    | (.error, k) => ⟨.exn, List.replicate k Event.prim⟩
    | (.blocked, k) => ⟨.blocked, List.replicate k Event.prim⟩

/-- Embedding of PosixDescriptor::write(const void* p, size_t size)
(PosixDescriptor.cpp lines 248-251): calls the internal write loop
directly; the source acquires no lock on this path. -/
def write_raw (prims : List WPrim) (size : Nat) : WSyncCall :=
  match writeLoop prims size size with
  | (.ok n, k) => ⟨.ret n, List.replicate k Event.prim⟩
  | (.error, k) => ⟨.exn, List.replicate k Event.prim⟩
  | (.blocked, k) => ⟨.blocked, List.replicate k Event.prim⟩

/-- Embedding of PosixDescriptor::write(const std::string& s)
(PosixDescriptor.cpp lines 261-264): writes the string's s.size() raw
bytes through the internal write loop; no lock on this path either. -/
def write_string (prims : List WPrim) (s : List Nat) : WSyncCall :=
  write_raw prims s.length

/-- The five values of the async_operation_ field of
PosixDescriptor::AsyncThread. -/
inductive AsyncOp where
  | NONE
  | READ_BUFFER
  | READ_VOID
  | WRITE_BUFFER
  | WRITE_VOID
deriving DecidableEq

/-- Data fields of PosixDescriptor::AsyncThread: the staged operation
tag, the staged size, and the two staged targets (buff_buffer_ is the
contents of the managed Buffer, void_buffer_ the raw region).  The
stored handler function pointers buff_handler_ and void_handler_ are
supplied as explicit parameters to run instead, because a handler may
act back on this very state (through startAsyncOperation), which a
field cannot express. -/
structure AsyncState where
  async_operation_ : AsyncOp
  size_ : Nat
  buff_buffer_ : List Nat
  void_buffer_ : List Nat
deriving DecidableEq

/-- Observable action of the worker routine: an underlying syscall, the
release of the descriptor lock, or the invocation of one of the two
completion handlers with its target and transferred count. -/
inductive AEvent where
  | prim
  | unlock
  | cbBuff (target : List Nat) (n : Nat)
  | cbVoid (target : List Nat) (n : Nat)
deriving DecidableEq

/-- Outcome of one execution of the worker routine run(): normal
completion with the final runner state and event trace, a propagated
exception (std::runtime_error) with the state and trace at the throw
point, or the modelling artefact for an exhausted oracle. -/
inductive RunOutcome where
  | done (st : AsyncState) (events : List AEvent)
  | thrown (st : AsyncState) (events : List AEvent)
  | blocked
deriving DecidableEq

/-- Embedding of PosixDescriptor::AsyncThread::startAsyncOperation for
the Buffer overload (PosixDescriptor.cpp lines 37-51): stores size,
handler and buffer, sets the operation tag from the direction flag and
launches the thread (the launch itself is the subsequent run).  The
handler storage is modelled by passing the handler to run. -/
def startAsyncOperation_buff (read_operation : Bool) (buff : List Nat) (size : Nat)
    (st : AsyncState) : AsyncState :=
  { st with
    size_ := size
    buff_buffer_ := buff
    async_operation_ := if read_operation then .READ_BUFFER else .WRITE_BUFFER }

/-- Embedding of PosixDescriptor::AsyncThread::startAsyncOperation for
the void* overload (PosixDescriptor.cpp lines 67-81). -/
def startAsyncOperation_void (read_operation : Bool) (buff : List Nat) (size : Nat)
    (st : AsyncState) : AsyncState :=
  { st with
    size_ := size
    void_buffer_ := buff
    async_operation_ := if read_operation then .READ_VOID else .WRITE_VOID }

/-- Embedding of PosixDescriptor::AsyncThread::run (PosixDescriptor.cpp
lines 92-116).  Dispatches on async_operation_ to the matching internal
loop; an unstaged NONE mode throws std::runtime_error before the unlock;
otherwise the lock is released, the handler matching the staged shape is
invoked with the staged target and the transferred count, and the mode
is reset to NONE.  A handler is a state transformer (its arguments are
the target, the count and the runner state it may act on); a loop error
propagates out of run before the unlock. -/
def run (buffH : List Nat → Nat → AsyncState → AsyncState)
    (voidH : List Nat → Nat → AsyncState → AsyncState)
    (rprims : List PrimResult) (wprims : List WPrim) (st : AsyncState) : RunOutcome :=
  match st.async_operation_ with
  | .NONE => .thrown st []
  | .READ_BUFFER =>
    match readLoop rprims st.buff_buffer_ st.size_ st.size_ with
    | (.ok buf n, k) =>
      let st1 := { st with buff_buffer_ := buf }
      let st2 := buffH st1.buff_buffer_ n st1
      .done { st2 with async_operation_ := .NONE }
        (List.replicate k AEvent.prim ++ [AEvent.unlock, AEvent.cbBuff buf n])
    | (.error buf, k) => .thrown { st with buff_buffer_ := buf } (List.replicate k AEvent.prim)
    | (.blocked _, _) => .blocked
  | .READ_VOID =>
    match readLoop rprims st.void_buffer_ st.size_ st.size_ with
    | (.ok buf n, k) =>
      let st1 := { st with void_buffer_ := buf }
      let st2 := voidH st1.void_buffer_ n st1
      .done { st2 with async_operation_ := .NONE }
        (List.replicate k AEvent.prim ++ [AEvent.unlock, AEvent.cbVoid buf n])
    | (.error buf, k) => .thrown { st with void_buffer_ := buf } (List.replicate k AEvent.prim)
    | (.blocked _, _) => .blocked
  | .WRITE_BUFFER =>
    match writeLoop wprims st.size_ st.size_ with
    | (.ok n, k) =>
      let st2 := buffH st.buff_buffer_ n st
      .done { st2 with async_operation_ := .NONE }
        (List.replicate k AEvent.prim ++ [AEvent.unlock, AEvent.cbBuff st.buff_buffer_ n])
    | (.error, k) => .thrown st (List.replicate k AEvent.prim)
    | (.blocked, _) => .blocked
  | .WRITE_VOID =>
    match writeLoop wprims st.size_ st.size_ with
    | (.ok n, k) =>
      let st2 := voidH st.void_buffer_ n st
      .done { st2 with async_operation_ := .NONE }
        (List.replicate k AEvent.prim ++ [AEvent.unlock, AEvent.cbVoid st.void_buffer_ n])
    | (.error, k) => .thrown st (List.replicate k AEvent.prim)
    | (.blocked, _) => .blocked

/-- Admissibility of a read oracle for a given remaining count: along
the path the loop would consume, every delivered chunk is no longer
than the count still unfilled at that point (the contract of ::read,
which never returns more than it was asked for). -/
def admissibleR : List PrimResult → Nat → Bool
  | [], _ => true
  | .err :: _, _ => true
  | .chunk c :: rest, r =>
    decide (c.length ≤ r) && (decide (c.length = 0) || admissibleR rest (r - c.length))

/-- Admissibility of a write oracle for a given remaining count: along
the consumed path, every accepted count is no more than the count still
unwritten at that point. -/
def admissibleW : List WPrim → Nat → Bool
  | [], _ => true
  | .err :: _, _ => true
  | .ok n :: rest, r =>
    decide (n ≤ r) && (decide (n = 0) || admissibleW rest (r - n))

/-- Recogniser for handler-invocation events of the worker routine. -/
def isCb : AEvent → Bool
  | .cbBuff _ _ => true
  | .cbVoid _ _ => true
  | .prim => false
  | .unlock => false

/-- Completion handler that does not act on the runner state. -/
def idHandler : List Nat → Nat → AsyncState → AsyncState := fun _ _ st => st

/-- Completion handler that restarts the runner from inside the
callback: it stages a new asynchronous raw read of one byte, the way a
user callback would by calling startAsyncOperation on the same
descriptor. -/
def restartHandler : List Nat → Nat → AsyncState → AsyncState :=
  fun _ _ st => startAsyncOperation_void true st.void_buffer_ 1 st

/-- Wrapping subtraction agrees with truncated subtraction in range. -/
theorem wsub_eq {a b : Nat} (hb : b ≤ a) (ha : a < W64) : wsub a b = a - b := by
  have hbW : b % W64 = b := Nat.mod_eq_of_lt (lt_of_le_of_lt hb ha)
  have hble : b ≤ W64 := le_of_lt (lt_of_le_of_lt hb ha)
  unfold wsub
  rw [hbW, show a + (W64 - b) = (a - b) + W64 from by omega, Nat.add_mod_right,
    Nat.mod_eq_of_lt (by omega)]

/-- Storing a concatenation is storing the parts in sequence. -/
theorem storeAt_append (c d : List Nat) : ∀ (buf : List Nat) (pos : Nat),
    storeAt buf pos (c ++ d) = storeAt (storeAt buf pos c) (pos + c.length) d := by
  induction c with
  | nil => intro buf pos; simp [storeAt]
  | cons b bs ih =>
    intro buf pos
    show storeAt (buf.set pos b) (pos + 1) (bs ++ d) = _
    rw [ih (buf.set pos b) (pos + 1)]
    show _ = storeAt (storeAt (buf.set pos b) (pos + 1) bs) (pos + (bs.length + 1)) d
    rw [show pos + 1 + bs.length = pos + (bs.length + 1) from by omega]

/-- Storing above position zero passes over the head of the region. -/
theorem storeAt_cons (bs : List Nat) : ∀ (a : Nat) (buf : List Nat) (pos : Nat),
    storeAt (a :: buf) (pos + 1) bs = a :: storeAt buf pos bs := by
  induction bs with
  | nil => intro a buf pos; rfl
  | cons b bs ih =>
    intro a buf pos
    show storeAt ((a :: buf).set (pos + 1) b) (pos + 2) bs = _
    show storeAt (a :: buf.set pos b) (pos + 1 + 1) bs = _
    rw [ih]
    rfl

/-- An in-bounds store at position zero overwrites exactly the stored
prefix of the region and keeps the rest. -/
theorem storeAt_zero (bs : List Nat) : ∀ (buf : List Nat),
    bs.length ≤ buf.length →
    storeAt buf 0 bs = bs ++ buf.drop bs.length := by
  induction bs with
  | nil => intro buf _; rfl
  | cons b bs ih =>
    intro buf h
    match buf with
    | [] => simp at h
    | a :: buf =>
      show storeAt ((a :: buf).set 0 b) (0 + 1) bs = _
      have h1 : (a :: buf).set 0 b = b :: buf := rfl
      rw [h1, storeAt_cons, ih buf (by simpa using h)]
      rfl

/-- Master lemma for the read loop: consuming a run of nonempty chunks
whose total length fits in the remaining count stores their
concatenation at the current fill position, decreases the remaining
count by that total, adds one underlying call per chunk, and continues
with the rest of the oracle. -/
theorem readLoop_chunks (cs : List (List Nat)) : ∀ (rest : List PrimResult) (buf : List Nat) (s r : Nat),
    s < W64 → r ≤ s → (∀ c ∈ cs, c ≠ []) → (cs.map List.length).sum ≤ r →
    readLoop (cs.map PrimResult.chunk ++ rest) buf s r =
      ((readLoop rest (storeAt buf (s - r) cs.flatten) s (r - (cs.map List.length).sum)).1,
       cs.length + (readLoop rest (storeAt buf (s - r) cs.flatten) s (r - (cs.map List.length).sum)).2) := by
  induction cs with
  | nil =>
    intro rest buf s r hW hr _ _
    simp [storeAt]
  | cons c cs ih =>
    intro rest buf s r hW hr hne hsum
    have hc : c ≠ [] := hne c (by simp)
    have hclen : 0 < c.length := List.length_pos.mpr hc
    simp only [List.map_cons, List.sum_cons] at hsum
    have hr0 : ¬ (r = 0) := by omega
    have hcr : c.length ≤ r := by omega
    rw [List.map_cons, List.cons_append, readLoop.eq_def]
    simp only [hr0, if_false, List.length_eq_zero, hc, if_false]
    rw [wsub_eq hcr (lt_of_le_of_lt hr hW), wsub_eq hr hW]
    rw [ih rest (storeAt buf (s - r) c) s (r - c.length) hW (by omega)
      (fun x hx => hne x (by simp [hx])) (by omega)]
    rw [show s - (r - c.length) = (s - r) + c.length from by omega]
    rw [← storeAt_append]
    have hfl : c ++ cs.flatten = (c :: cs).flatten := by simp
    rw [hfl]
    rw [show r - c.length - (cs.map List.length).sum = r - (List.length c + (cs.map List.length).sum)
      from by omega]
    simp only [List.map_cons, List.sum_cons, List.length_cons]
    rw [Nat.add_right_comm]

/-- Master lemma for the write loop: consuming a run of positive accepted
counts whose total fits in the remaining count decreases the remaining
count by the total, adds one underlying call per entry, and continues
with the rest of the oracle. -/
theorem writeLoop_counts (qs : List Nat) : ∀ (rest : List WPrim) (s r : Nat),
    s < W64 → r ≤ s → (∀ q ∈ qs, q ≠ 0) → qs.sum ≤ r →
    writeLoop (qs.map WPrim.ok ++ rest) s r =
      ((writeLoop rest s (r - qs.sum)).1, qs.length + (writeLoop rest s (r - qs.sum)).2) := by
  induction qs with
  | nil =>
    intro rest s r hW hr _ _
    simp
  | cons q qs ih =>
    intro rest s r hW hr hne hsum
    have hq : q ≠ 0 := hne q (by simp)
    simp only [List.sum_cons] at hsum
    have hr0 : ¬ (r = 0) := by omega
    have hqr : q ≤ r := by omega
    rw [List.map_cons, List.cons_append, writeLoop.eq_def]
    simp only [hr0, if_false, hq, if_false]
    rw [wsub_eq hqr (lt_of_le_of_lt hr hW)]
    rw [ih rest s (r - q) hW (by omega) (fun x hx => hne x (by simp [hx])) (by omega)]
    rw [show r - q - qs.sum = r - (q + qs.sum) from by omega]
    simp only [List.sum_cons, List.length_cons]
    rw [Nat.add_right_comm]

/-- C1: counterexample to the claim as stated.  The parenthetical part
of the claim asserts that a synchronous read of s bytes into a managed
buffer of capacity at least s returns exactly s whenever the oracle
delivers s bytes; at s = 0 with a zero-capacity buffer the hypothesis
is satisfied by the empty oracle, yet read(Buffer*, size_t) rejects the
zero-capacity buffer and returns -1, not 0. -/
theorem c1_counterexample :
    read_Buffer [] [] 0 = ⟨SyncRes.ret (-1), [], []⟩ ∧
    SyncRes.ret (-1) ≠ SyncRes.ret 0 := by
  decide

/-- C1 (amended): for every requested size s, if the underlying read
primitive returns positive byte counts (each at most the remaining
count, which the hypotheses total length = s and positivity of every
chunk guarantee along the loop) until s bytes in total have been
delivered, then the internal read loop returns exactly s and the target
region is fully populated with the delivered bytes; consequently a
synchronous read of s bytes into a buffer of nonzero capacity at least
s returns exactly s. -/
theorem c1_full_read_returns_requested (cs : List (List Nat)) (buf : List Nat) (s : Nat)
    (hW : s < W64) (hpos : 0 < buf.length) (hcap : s ≤ buf.length)
    (hne : ∀ c ∈ cs, c ≠ []) (hsum : (cs.map List.length).sum = s) :
    readLoop (cs.map PrimResult.chunk) buf s s = (.ok (cs.flatten ++ buf.drop s) s, cs.length) ∧
    read_Buffer (cs.map PrimResult.chunk) buf s =
      ⟨.ret s, Event.lock :: (List.replicate cs.length Event.prim ++ [Event.unlock]),
        cs.flatten ++ buf.drop s⟩ ∧
    (cs.flatten ++ buf.drop s).take s = cs.flatten := by
  have hflat : cs.flatten.length = s := by
    rw [List.length_flatten, hsum]
  have hstore : storeAt buf 0 cs.flatten = cs.flatten ++ buf.drop s := by
    rw [storeAt_zero cs.flatten buf (by omega), hflat]
  have hloop : readLoop (cs.map PrimResult.chunk) buf s s =
      (.ok (cs.flatten ++ buf.drop s) s, cs.length) := by
    have h := readLoop_chunks cs [] buf s s hW le_rfl hne (le_of_eq hsum)
    rw [List.append_nil] at h
    rw [h, hsum, Nat.sub_self, hstore]
    rw [readLoop.eq_def]
    simp [wsub_eq (Nat.zero_le s) hW]
  refine ⟨hloop, ?_, ?_⟩
  · unfold read_Buffer
    rw [if_neg (by omega), hloop]
  · have h := List.take_left cs.flatten (buf.drop s)
    rw [hflat] at h
    exact h

/-- C1 witness: two one-byte deliveries fill a two-byte read into a
three-byte buffer, returning exactly 2 with the region populated. -/
theorem c1_witness :
    read_Buffer [PrimResult.chunk [1], PrimResult.chunk [2]] [0, 0, 0] 2 =
      ⟨SyncRes.ret 2, [Event.lock, Event.prim, Event.prim, Event.unlock], [1, 2, 0]⟩ :=
  ((c1_full_read_returns_requested [[1], [2]] [0, 0, 0] 2 (by decide) (by decide) (by decide)
      (by decide) (by decide)).2.1).trans (by decide)

/-- C3: a managed-buffer read or write whose size is invalid for the
buffer (zero capacity or size exceeding capacity) returns the sentinel
-1 without throwing, with an empty event trace (so the underlying
primitive is never invoked and the lock is never touched) and with the
buffer contents unchanged. -/
theorem c3_invalid_size_rejected (rp : List PrimResult) (wp : List WPrim)
    (b : List Nat) (s : Nat) (h : b.length = 0 ∨ s > b.length) :
    read_Buffer rp b s = ⟨.ret (-1), [], b⟩ ∧
    write_Buffer wp b s = ⟨.ret (-1), []⟩ := by
  constructor
  · unfold read_Buffer
    rw [if_pos h]
  · unfold write_Buffer
    rw [if_pos h]

/-- C3 witness: a request of 2 bytes against a one-byte buffer is
rejected with -1, no events, buffer untouched. -/
theorem c3_witness :
    read_Buffer [PrimResult.chunk [9]] [4] 2 = ⟨SyncRes.ret (-1), [], [4]⟩ ∧
    write_Buffer [WPrim.ok 1] [4] 2 = ⟨SyncRes.ret (-1), []⟩ :=
  c3_invalid_size_rejected [PrimResult.chunk [9]] [WPrim.ok 1] [4] 2 (by decide)

/-- C4: when the underlying primitive reports a zero-byte result after
delivering k bytes with k less than the requested s, the internal read
loop and the internal write loop each stop early and return the
accumulated count k through their normal (non-error) ok outcome. -/
theorem c4_zero_result_stops_early (cs : List (List Nat)) (qs : List Nat)
    (rrest : List PrimResult) (wrest : List WPrim) (buf : List Nat) (s kr kw : Nat)
    (hW : s < W64) (hkr : kr < s) (hkw : kw < s)
    (hcs : ∀ c ∈ cs, c ≠ []) (hsumr : (cs.map List.length).sum = kr)
    (hqs : ∀ q ∈ qs, q ≠ 0) (hsumw : qs.sum = kw) :
    (readLoop (cs.map PrimResult.chunk ++ PrimResult.chunk [] :: rrest) buf s s).1 =
      .ok (storeAt buf 0 cs.flatten) kr ∧
    (writeLoop (qs.map WPrim.ok ++ WPrim.ok 0 :: wrest) s s).1 = .ok kw := by
  constructor
  · rw [readLoop_chunks cs (PrimResult.chunk [] :: rrest) buf s s hW le_rfl hcs (by omega)]
    rw [hsumr, Nat.sub_self]
    rw [readLoop.eq_def]
    simp only [if_neg (by omega : ¬ (s - kr = 0)), List.length_nil, if_pos rfl]
    rw [wsub_eq (Nat.sub_le s kr) hW, show s - (s - kr) = kr from by omega]
    simp
  · rw [writeLoop_counts qs (WPrim.ok 0 :: wrest) s s hW le_rfl hqs (by omega)]
    rw [hsumw]
    rw [writeLoop.eq_def]
    simp only [if_neg (by omega : ¬ (s - kw = 0)), if_pos rfl]
    rw [wsub_eq (Nat.sub_le s kw) hW, show s - (s - kw) = kw from by omega]
    simp

/-- C4 witness: one byte delivered, then a zero result, on a requested
size of 3: both loops return 1 through the ok outcome. -/
theorem c4_witness :
    (readLoop [PrimResult.chunk [7], PrimResult.chunk []] [0, 0, 0] 3 3).1 =
      .ok [7, 0, 0] 1 ∧
    (writeLoop [WPrim.ok 1, WPrim.ok 0] 3 3).1 = .ok 1 := by
  have h := c4_zero_result_stops_early [[7]] [1] [] [] [0, 0, 0] 3 1 1 (by decide) (by decide)
    (by decide) (by decide) (by decide) (by decide) (by decide)
  exact ⟨h.1.trans (by decide), h.2⟩

/-- C5: a negative result from the underlying primitive after k bytes
were transferred aborts the loop with the thrown-error outcome, which
carries no byte count; through the synchronous raw read and raw write
wrappers the error surfaces to the caller as a propagated exception
rather than a returned count. -/
theorem c5_negative_result_aborts (cs : List (List Nat)) (qs : List Nat)
    (rrest : List PrimResult) (wrest : List WPrim) (buf : List Nat) (s kr kw : Nat)
    (hW : s < W64) (hkr : kr < s) (hkw : kw < s)
    (hcs : ∀ c ∈ cs, c ≠ []) (hsumr : (cs.map List.length).sum = kr)
    (hqs : ∀ q ∈ qs, q ≠ 0) (hsumw : qs.sum = kw) :
    readLoop (cs.map PrimResult.chunk ++ PrimResult.err :: rrest) buf s s =
      (.error (storeAt buf 0 cs.flatten), cs.length + 1) ∧
    (read_raw (cs.map PrimResult.chunk ++ PrimResult.err :: rrest) buf s).res = .exn ∧
    writeLoop (qs.map WPrim.ok ++ WPrim.err :: wrest) s s = (.error, qs.length + 1) ∧
    (write_raw (qs.map WPrim.ok ++ WPrim.err :: wrest) s).res = .exn := by
  have hr : readLoop (cs.map PrimResult.chunk ++ PrimResult.err :: rrest) buf s s =
      (.error (storeAt buf 0 cs.flatten), cs.length + 1) := by
    rw [readLoop_chunks cs (PrimResult.err :: rrest) buf s s hW le_rfl hcs (by omega)]
    rw [hsumr, Nat.sub_self]
    rw [readLoop.eq_def]
    simp only [if_neg (by omega : ¬ (s - kr = 0))]
  have hw : writeLoop (qs.map WPrim.ok ++ WPrim.err :: wrest) s s =
      (.error, qs.length + 1) := by
    rw [writeLoop_counts qs (WPrim.err :: wrest) s s hW le_rfl hqs (by omega)]
    rw [hsumw]
    rw [writeLoop.eq_def]
    simp only [if_neg (by omega : ¬ (s - kw = 0))]
  refine ⟨hr, ?_, hw, ?_⟩
  · unfold read_raw
    rw [hr]
  · unfold write_raw
    rw [hw]

/-- C5 witness: one byte transferred, then a negative result, on a
requested size of 2: both loops abort with the error outcome and both
raw wrappers surface the exception. -/
theorem c5_witness :
    readLoop [PrimResult.chunk [7], PrimResult.err] [0, 0] 2 2 = (.error [7, 0], 2) ∧
    (read_raw [PrimResult.chunk [7], PrimResult.err] [0, 0] 2).res = .exn ∧
    writeLoop [WPrim.ok 1, WPrim.err] 2 2 = (.error, 2) ∧
    (write_raw [WPrim.ok 1, WPrim.err] 2).res = .exn := by
  have h := c5_negative_result_aborts [[7]] [1] [] [] [0, 0] 2 1 1 (by decide) (by decide)
    (by decide) (by decide) (by decide) (by decide) (by decide)
  exact ⟨h.1.trans (by decide), h.2.1, h.2.2.1, h.2.2.2⟩

/-- Auxiliary bound for the read loop: along any admissible oracle the
normally returned count never exceeds the requested size. -/
theorem readLoop_count_le (rp : List PrimResult) : ∀ (buf : List Nat) (s r : Nat),
    s < W64 → r ≤ s → admissibleR rp r = true →
    ∀ buf' n k, readLoop rp buf s r = (.ok buf' n, k) → n ≤ s := by
  induction rp with
  | nil =>
    intro buf s r hW hr _ buf' n k h
    rw [readLoop.eq_def] at h
    dsimp only at h
    by_cases hr0 : r = 0
    · rw [if_pos hr0] at h
      have h2 := congrArg Prod.fst h
      dsimp only at h2
      injection h2 with e1 e2
      rw [← e2, hr0, wsub_eq (Nat.zero_le s) hW]
      omega
    · rw [if_neg hr0] at h
      exact absurd (congrArg Prod.fst h) (by simp)
  | cons p rest ih =>
    intro buf s r hW hr hadm buf' n k h
    rw [readLoop.eq_def] at h
    dsimp only at h
    by_cases hr0 : r = 0
    · rw [if_pos hr0] at h
      have h2 := congrArg Prod.fst h
      dsimp only at h2
      injection h2 with e1 e2
      rw [← e2, hr0, wsub_eq (Nat.zero_le s) hW]
      omega
    · rw [if_neg hr0] at h
      cases p with
      | err =>
        dsimp only at h
        exact absurd (congrArg Prod.fst h) (by simp)
      | chunk c =>
        dsimp only at h
        simp only [admissibleR, Bool.and_eq_true, Bool.or_eq_true, decide_eq_true_eq] at hadm
        by_cases hc : c.length = 0
        · rw [if_pos hc] at h
          have h2 := congrArg Prod.fst h
          dsimp only at h2
          injection h2 with e1 e2
          rw [← e2, wsub_eq hr hW]
          omega
        · rw [if_neg hc] at h
          have hadm' : admissibleR rest (r - c.length) = true := by
            rcases hadm.2 with h0 | h1
            · exact absurd h0 hc
            · exact h1
          have hcr : c.length ≤ r := hadm.1
          have h1 : readLoop rest (storeAt buf (wsub s r) c) s (wsub r c.length) =
              (.ok buf' n, (readLoop rest (storeAt buf (wsub s r) c) s (wsub r c.length)).2) := by
            have h2 := congrArg Prod.fst h
            dsimp only at h2
            rw [← h2]
          rw [wsub_eq hcr (lt_of_le_of_lt hr hW)] at h1
          exact ih (storeAt buf (wsub s r) c) s (r - c.length) hW (by omega) hadm' buf' n _ h1

/-- Auxiliary bound for the write loop, symmetric to readLoop_count_le. -/
theorem writeLoop_count_le (wp : List WPrim) : ∀ (s r : Nat),
    s < W64 → r ≤ s → admissibleW wp r = true →
    ∀ n k, writeLoop wp s r = (.ok n, k) → n ≤ s := by
  induction wp with
  | nil =>
    intro s r hW hr _ n k h
    rw [writeLoop.eq_def] at h
    dsimp only at h
    by_cases hr0 : r = 0
    · rw [if_pos hr0] at h
      have h2 := congrArg Prod.fst h
      dsimp only at h2
      injection h2 with e2
      rw [← e2, hr0, wsub_eq (Nat.zero_le s) hW]
      omega
    · rw [if_neg hr0] at h
      exact absurd (congrArg Prod.fst h) (by simp)
  | cons p rest ih =>
    intro s r hW hr hadm n k h
    rw [writeLoop.eq_def] at h
    dsimp only at h
    by_cases hr0 : r = 0
    · rw [if_pos hr0] at h
      have h2 := congrArg Prod.fst h
      dsimp only at h2
      injection h2 with e2
      rw [← e2, hr0, wsub_eq (Nat.zero_le s) hW]
      omega
    · rw [if_neg hr0] at h
      cases p with
      | err =>
        dsimp only at h
        exact absurd (congrArg Prod.fst h) (by simp)
      | ok q =>
        dsimp only at h
        simp only [admissibleW, Bool.and_eq_true, Bool.or_eq_true, decide_eq_true_eq] at hadm
        by_cases hq : q = 0
        · rw [if_pos hq] at h
          have h2 := congrArg Prod.fst h
          dsimp only at h2
          injection h2 with e2
          rw [← e2, wsub_eq hr hW]
          omega
        · rw [if_neg hq] at h
          have hadm' : admissibleW rest (r - q) = true := by
            rcases hadm.2 with h0 | h1
            · exact absurd h0 hq
            · exact h1
          have hqr : q ≤ r := hadm.1
          have h1 : writeLoop rest s (wsub r q) =
              (.ok n, (writeLoop rest s (wsub r q)).2) := by
            have h2 := congrArg Prod.fst h
            dsimp only at h2
            rw [← h2]
          rw [wsub_eq hqr (lt_of_le_of_lt hr hW)] at h1
          exact ih s (r - q) hW (by omega) hadm' n _ h1

/-- C9: for every requested size s and every admissible oracle (each
successful underlying transfer returns at most the remaining unfilled
count), whenever the internal read loop or the internal write loop
returns normally, the returned count is at most s. -/
theorem c9_count_never_exceeds_request (rp : List PrimResult) (wp : List WPrim)
    (buf : List Nat) (s : Nat) (hW : s < W64) :
    (admissibleR rp s = true →
      ∀ buf' n k, readLoop rp buf s s = (.ok buf' n, k) → n ≤ s) ∧
    (admissibleW wp s = true →
      ∀ n k, writeLoop wp s s = (.ok n, k) → n ≤ s) :=
  ⟨fun hadm => readLoop_count_le rp buf s s hW le_rfl hadm,
   fun hadm => writeLoop_count_le wp s s hW le_rfl hadm⟩

/-- C9 witness: a two-byte request served by one byte then end-of-stream
returns 1, which is at most 2, on both loops. -/
theorem c9_witness :
    (1 : Nat) ≤ 2 ∧ (1 : Nat) ≤ 2 :=
  ⟨(c9_count_never_exceeds_request [PrimResult.chunk [5], PrimResult.chunk []] [WPrim.ok 1, WPrim.ok 0]
      [0, 0] 2 (by decide)).1 (by decide) [5, 0] 1 2 (by decide),
   (c9_count_never_exceeds_request [PrimResult.chunk [5], PrimResult.chunk []] [WPrim.ok 1, WPrim.ok 0]
      [0, 0] 2 (by decide)).2 (by decide) 1 2 (by decide)⟩

/-- C2 fails on the code: the claim (and the spec) require every
synchronous transfer, writes included, to run the internal loop under
the descriptor lock, but the three write overloads call the write loop
directly and never touch the lock.  First conjunct: a concrete raw
write of one byte performs an underlying transfer with a trace that
contains no lock acquisition at all.  Remaining conjuncts: no write
path ever records a lock acquisition, while the raw read path always
records exactly one. -/
theorem c2_write_loop_runs_without_lock :
    (write_raw [WPrim.ok 1] 1).trace = [Event.prim] ∧
    (∀ wp s, ((write_raw wp s).trace).count Event.lock = 0) ∧
    (∀ wp b s, ((write_Buffer wp b s).trace).count Event.lock = 0) ∧
    (∀ wp str, ((write_string wp str).trace).count Event.lock = 0) ∧
    (∀ rp p s, ((read_raw rp p s).trace).count Event.lock = 1) := by
  have hw : ∀ wp s, ((write_raw wp s).trace).count Event.lock = 0 := by
    intro wp s
    unfold write_raw
    match h : writeLoop wp s s with
    | (.ok n, k) => simp [List.count_replicate]
    | (.error, k) => simp [List.count_replicate]
    | (.blocked, k) => simp [List.count_replicate]
  refine ⟨by decide, hw, ?_, ?_, ?_⟩
  · intro wp b s
    unfold write_Buffer
    by_cases hv : b.length = 0 ∨ s > b.length
    · rw [if_pos hv]
      rfl
    · rw [if_neg hv]
      match h : writeLoop wp s s with
      | (.ok n, k) => simp [List.count_replicate]
      | (.error, k) => simp [List.count_replicate]
      | (.blocked, k) => simp [List.count_replicate]
  · intro wp str
    exact hw wp str.length
  · intro rp p s
    unfold read_raw
    match h : readLoop rp p s s with
    | (.ok buf n, k) => simp [List.count_replicate]
    | (.error buf, k) => simp [List.count_replicate]
    | (.blocked buf, k) => simp [List.count_replicate]

/-- Helper: a run of underlying-syscall events contains no handler
invocation. -/
theorem filter_isCb_replicate_prim (k : Nat) :
    (List.replicate k AEvent.prim).filter isCb = [] := by
  induction k with
  | zero => rfl
  | succ k ih =>
    rw [List.replicate_succ, List.filter_cons]
    simp [isCb, ih]

/-- C6: whenever the worker routine runs with a staged mode other than
none and the transfer completes, the final mode is none, exactly one
handler invocation appears in the trace, and the trace consists of the
underlying calls of the loop matching the staged mode, then the lock
release, then (strictly after it, as the last event) the one handler
invocation matching the staged shape, carrying the staged target and
the transferred count. -/
theorem c6_run_unlocks_then_one_matching_callback
    (bh vh : List Nat → Nat → AsyncState → AsyncState)
    (rp : List PrimResult) (wp : List WPrim) (st st' : AsyncState) (evs : List AEvent)
    (hmode : st.async_operation_ ≠ .NONE)
    (hrun : run bh vh rp wp st = .done st' evs) :
    st'.async_operation_ = .NONE ∧
    (evs.filter isCb).length = 1 ∧
    ∃ k n,
      (st.async_operation_ = .READ_BUFFER → ∃ buf,
        readLoop rp st.buff_buffer_ st.size_ st.size_ = (.ok buf n, k) ∧
        evs = List.replicate k AEvent.prim ++ [AEvent.unlock, AEvent.cbBuff buf n]) ∧
      (st.async_operation_ = .READ_VOID → ∃ buf,
        readLoop rp st.void_buffer_ st.size_ st.size_ = (.ok buf n, k) ∧
        evs = List.replicate k AEvent.prim ++ [AEvent.unlock, AEvent.cbVoid buf n]) ∧
      (st.async_operation_ = .WRITE_BUFFER →
        writeLoop wp st.size_ st.size_ = (.ok n, k) ∧
        evs = List.replicate k AEvent.prim ++ [AEvent.unlock, AEvent.cbBuff st.buff_buffer_ n]) ∧
      (st.async_operation_ = .WRITE_VOID →
        writeLoop wp st.size_ st.size_ = (.ok n, k) ∧
        evs = List.replicate k AEvent.prim ++ [AEvent.unlock, AEvent.cbVoid st.void_buffer_ n]) := by
  unfold run at hrun
  cases hm : st.async_operation_ with
  | NONE => exact absurd hm hmode
  | READ_BUFFER =>
    rw [hm] at hrun
    dsimp only at hrun
    cases hloop : readLoop rp st.buff_buffer_ st.size_ st.size_ with
    | mk res k =>
      rw [hloop] at hrun
      cases res with
      | ok buf n =>
        dsimp only at hrun
        injection hrun with e1 e2
        subst e1
        subst e2
        refine ⟨rfl, ?_, k, n, fun _ => ⟨buf, rfl, rfl⟩, ?_, ?_, ?_⟩
        · simp [List.filter_append, filter_isCb_replicate_prim, isCb]
        all_goals intro hcontra; exact absurd hcontra (by simp)
      | error buf => dsimp only at hrun; simp at hrun
      | blocked buf => dsimp only at hrun; simp at hrun
  | READ_VOID =>
    rw [hm] at hrun
    dsimp only at hrun
    cases hloop : readLoop rp st.void_buffer_ st.size_ st.size_ with
    | mk res k =>
      rw [hloop] at hrun
      cases res with
      | ok buf n =>
        dsimp only at hrun
        injection hrun with e1 e2
        subst e1
        subst e2
        refine ⟨rfl, ?_, k, n, ?_, fun _ => ⟨buf, rfl, rfl⟩, ?_, ?_⟩
        · simp [List.filter_append, filter_isCb_replicate_prim, isCb]
        all_goals intro hcontra; exact absurd hcontra (by simp)
      | error buf => dsimp only at hrun; simp at hrun
      | blocked buf => dsimp only at hrun; simp at hrun
  | WRITE_BUFFER =>
    rw [hm] at hrun
    dsimp only at hrun
    cases hloop : writeLoop wp st.size_ st.size_ with
    | mk res k =>
      rw [hloop] at hrun
      cases res with
      | ok n =>
        dsimp only at hrun
        injection hrun with e1 e2
        subst e1
        subst e2
        refine ⟨rfl, ?_, k, n, ?_, ?_, fun _ => ⟨rfl, rfl⟩, ?_⟩
        · simp [List.filter_append, filter_isCb_replicate_prim, isCb]
        all_goals intro hcontra; exact absurd hcontra (by simp)
      | error => dsimp only at hrun; simp at hrun
      | blocked => dsimp only at hrun; simp at hrun
  | WRITE_VOID =>
    rw [hm] at hrun
    dsimp only at hrun
    cases hloop : writeLoop wp st.size_ st.size_ with
    | mk res k =>
      rw [hloop] at hrun
      cases res with
      | ok n =>
        dsimp only at hrun
        injection hrun with e1 e2
        subst e1
        subst e2
        refine ⟨rfl, ?_, k, n, ?_, ?_, ?_, fun _ => ⟨rfl, rfl⟩⟩
        · simp [List.filter_append, filter_isCb_replicate_prim, isCb]
        all_goals intro hcontra; exact absurd hcontra (by simp)
      | error => dsimp only at hrun; simp at hrun
      | blocked => dsimp only at hrun; simp at hrun

/-- C6 witness: a raw-pointer async read of one byte that the oracle
serves in one call.  The worker dispatches to the read loop, releases
the lock, invokes the raw handler once with the target and count 1, and
resets the mode. -/
theorem c6_witness :
    AsyncState.async_operation_ ⟨.NONE, 1, [0], [5]⟩ = .NONE ∧
    (([AEvent.prim, AEvent.unlock, AEvent.cbVoid [5] 1].filter isCb).length = 1) ∧
    ∃ k n,
      ((⟨AsyncOp.READ_VOID, 1, [0], [0]⟩ : AsyncState).async_operation_ = .READ_BUFFER → ∃ buf,
        readLoop [PrimResult.chunk [5]] [0] 1 1 = (.ok buf n, k) ∧
        [AEvent.prim, AEvent.unlock, AEvent.cbVoid [5] 1] =
          List.replicate k AEvent.prim ++ [AEvent.unlock, AEvent.cbBuff buf n]) ∧
      ((⟨AsyncOp.READ_VOID, 1, [0], [0]⟩ : AsyncState).async_operation_ = .READ_VOID → ∃ buf,
        readLoop [PrimResult.chunk [5]] [0] 1 1 = (.ok buf n, k) ∧
        [AEvent.prim, AEvent.unlock, AEvent.cbVoid [5] 1] =
          List.replicate k AEvent.prim ++ [AEvent.unlock, AEvent.cbVoid buf n]) ∧
      ((⟨AsyncOp.READ_VOID, 1, [0], [0]⟩ : AsyncState).async_operation_ = .WRITE_BUFFER →
        writeLoop [] 1 1 = (.ok n, k) ∧
        [AEvent.prim, AEvent.unlock, AEvent.cbVoid [5] 1] =
          List.replicate k AEvent.prim ++ [AEvent.unlock, AEvent.cbBuff [0] n]) ∧
      ((⟨AsyncOp.READ_VOID, 1, [0], [0]⟩ : AsyncState).async_operation_ = .WRITE_VOID →
        writeLoop [] 1 1 = (.ok n, k) ∧
        [AEvent.prim, AEvent.unlock, AEvent.cbVoid [5] 1] =
          List.replicate k AEvent.prim ++ [AEvent.unlock, AEvent.cbVoid [0] n]) := by
  have h := c6_run_unlocks_then_one_matching_callback idHandler idHandler
    [PrimResult.chunk [5]] [] ⟨.READ_VOID, 1, [0], [0]⟩ ⟨.NONE, 1, [0], [5]⟩
    [AEvent.prim, AEvent.unlock, AEvent.cbVoid [5] 1] (by decide) (by decide)
  exact h

/-- C7: counterexample to the claim as stated.  A completion callback
that restarts the runner by staging a new raw-read operation (mode
READ_VOID) does not leave that mode staged after the worker routine
finishes: run's final assignment resets the mode to NONE, overwriting
the restart staged from inside the callback.  The staged state at the
moment the callback runs is ⟨READ_BUFFER, 1, [3], [9]⟩, the callback
turns it into mode READ_VOID, yet the state run leaves behind has mode
NONE, different from READ_VOID. -/
theorem c7_counterexample :
    run restartHandler idHandler [PrimResult.chunk [3]] []
        ⟨AsyncOp.READ_BUFFER, 1, [0], [9]⟩ =
      .done ⟨AsyncOp.NONE, 1, [3], [9]⟩ [AEvent.prim, AEvent.unlock, AEvent.cbBuff [3] 1] ∧
    (restartHandler [3] 1 ⟨AsyncOp.READ_BUFFER, 1, [3], [9]⟩).async_operation_ =
      AsyncOp.READ_VOID ∧
    AsyncOp.NONE ≠ AsyncOp.READ_VOID := by
  decide

/-- C7 (amended): after the worker routine finishes normally, the
runner's staged mode is none regardless of what the completion callback
staged: the routine's final reset overwrites any operation started from
inside the callback, so the claimed preservation of the restarted mode
does not hold and the runner ends idle instead. -/
theorem c7_mode_reset_overwrites_restart
    (bh vh : List Nat → Nat → AsyncState → AsyncState)
    (rp : List PrimResult) (wp : List WPrim) (st st' : AsyncState) (evs : List AEvent)
    (hrun : run bh vh rp wp st = .done st' evs) :
    st'.async_operation_ = .NONE := by
  unfold run at hrun
  cases hm : st.async_operation_ with
  | NONE =>
    rw [hm] at hrun
    dsimp only at hrun
    simp at hrun
  | READ_BUFFER =>
    rw [hm] at hrun
    dsimp only at hrun
    cases hloop : readLoop rp st.buff_buffer_ st.size_ st.size_ with
    | mk res k =>
      rw [hloop] at hrun
      cases res with
      | ok buf n => dsimp only at hrun; injection hrun with e1 e2; rw [← e1]
      | error buf => dsimp only at hrun; simp at hrun
      | blocked buf => dsimp only at hrun; simp at hrun
  | READ_VOID =>
    rw [hm] at hrun
    dsimp only at hrun
    cases hloop : readLoop rp st.void_buffer_ st.size_ st.size_ with
    | mk res k =>
      rw [hloop] at hrun
      cases res with
      | ok buf n => dsimp only at hrun; injection hrun with e1 e2; rw [← e1]
      | error buf => dsimp only at hrun; simp at hrun
      | blocked buf => dsimp only at hrun; simp at hrun
  | WRITE_BUFFER =>
    rw [hm] at hrun
    dsimp only at hrun
    cases hloop : writeLoop wp st.size_ st.size_ with
    | mk res k =>
      rw [hloop] at hrun
      cases res with
      | ok n => dsimp only at hrun; injection hrun with e1 e2; rw [← e1]
      | error => dsimp only at hrun; simp at hrun
      | blocked => dsimp only at hrun; simp at hrun
  | WRITE_VOID =>
    rw [hm] at hrun
    dsimp only at hrun
    cases hloop : writeLoop wp st.size_ st.size_ with
    | mk res k =>
      rw [hloop] at hrun
      cases res with
      | ok n => dsimp only at hrun; injection hrun with e1 e2; rw [← e1]
      | error => dsimp only at hrun; simp at hrun
      | blocked => dsimp only at hrun; simp at hrun

/-- C7 witness: the amended statement applied to the restarting
callback of the counterexample: the final mode is none even though the
callback staged READ_VOID. -/
theorem c7_witness :
    AsyncState.async_operation_ ⟨AsyncOp.NONE, 1, [3], [9]⟩ = AsyncOp.NONE :=
  c7_mode_reset_overwrites_restart restartHandler idHandler [PrimResult.chunk [3]] []
    ⟨AsyncOp.READ_BUFFER, 1, [0], [9]⟩ ⟨AsyncOp.NONE, 1, [3], [9]⟩
    [AEvent.prim, AEvent.unlock, AEvent.cbBuff [3] 1] (by decide)

/-- C8: if the worker routine executes while the staged mode is none,
it performs no transfer and no handler invocation, leaves the state
unchanged and raises the runtime failure (the thrown outcome with an
empty event trace: no underlying call, no unlock, no callback). -/
theorem c8_none_mode_raises (bh vh : List Nat → Nat → AsyncState → AsyncState)
    (rp : List PrimResult) (wp : List WPrim) (st : AsyncState)
    (hmode : st.async_operation_ = .NONE) :
    run bh vh rp wp st = .thrown st [] := by
  unfold run
  rw [hmode]

/-- C8 witness: a runner with nothing staged throws immediately with an
empty trace. -/
theorem c8_witness :
    run idHandler idHandler [PrimResult.chunk [5]] [WPrim.ok 1]
      ⟨AsyncOp.NONE, 3, [0], [0]⟩ = .thrown ⟨AsyncOp.NONE, 3, [0], [0]⟩ [] :=
  c8_none_mode_raises idHandler idHandler [PrimResult.chunk [5]] [WPrim.ok 1]
    ⟨AsyncOp.NONE, 3, [0], [0]⟩ (by decide)

/-- C10: the asynchronous path performs no buffer-capacity validation:
for a managed-buffer target whose capacity is zero or smaller than the
requested size, startAsyncOperation still stages the operation (mode,
size and buffer stored unvalidated, for both directions), and the
worker routine then invokes the internal read loop with exactly that
unvalidated requested size. -/
theorem c10_async_skips_validation (b : List Nat) (s : Nat) (st : AsyncState)
    (hbad : b.length = 0 ∨ b.length < s) :
    (startAsyncOperation_buff true b s st).async_operation_ = .READ_BUFFER ∧
    (startAsyncOperation_buff true b s st).size_ = s ∧
    (startAsyncOperation_buff true b s st).buff_buffer_ = b ∧
    (startAsyncOperation_buff false b s st).async_operation_ = .WRITE_BUFFER ∧
    (startAsyncOperation_buff false b s st).size_ = s ∧
    ∀ (bh vh : List Nat → Nat → AsyncState → AsyncState)
      (rp : List PrimResult) (wp : List WPrim) (buf : List Nat) (n k : Nat),
      readLoop rp b s s = (.ok buf n, k) →
      run bh vh rp wp (startAsyncOperation_buff true b s st) =
        .done { (bh buf n ⟨.READ_BUFFER, s, buf, st.void_buffer_⟩) with
                  async_operation_ := .NONE }
          (List.replicate k AEvent.prim ++ [AEvent.unlock, AEvent.cbBuff buf n]) := by
  refine ⟨rfl, rfl, rfl, rfl, rfl, ?_⟩
  intro bh vh rp wp buf n k hloop
  unfold run startAsyncOperation_buff
  dsimp only
  rw [hloop]
  rfl

/-- C10 witness: an async read of one byte staged on a zero-capacity
buffer (capacity 0 < requested size 1) is staged and executed with the
unvalidated size 1; the oracle answers end-of-stream, so the worker
invokes the loop, gets 0 bytes and still runs the full
unlock-then-callback sequence. -/
theorem c10_witness :
    (startAsyncOperation_buff true [] 1 ⟨AsyncOp.NONE, 0, [7], [8]⟩).async_operation_ =
      .READ_BUFFER ∧
    (startAsyncOperation_buff true [] 1 ⟨AsyncOp.NONE, 0, [7], [8]⟩).size_ = 1 ∧
    (startAsyncOperation_buff true [] 1 ⟨AsyncOp.NONE, 0, [7], [8]⟩).buff_buffer_ = [] ∧
    run idHandler idHandler [PrimResult.chunk []] []
        (startAsyncOperation_buff true [] 1 ⟨AsyncOp.NONE, 0, [7], [8]⟩) =
      .done ⟨AsyncOp.NONE, 1, [], [8]⟩ [AEvent.prim, AEvent.unlock, AEvent.cbBuff [] 0] := by
  have h := c10_async_skips_validation [] 1 ⟨AsyncOp.NONE, 0, [7], [8]⟩ (by decide)
  refine ⟨h.1, h.2.1, h.2.2.1, ?_⟩
  have h6 := h.2.2.2.2.2 idHandler idHandler [PrimResult.chunk []] [] [] 0 1 (by decide)
  exact h6.trans (by decide)

end Onposix
